import Mathlib

/-!
# Verification of the RAG retrieval pipeline

Shallow embedding of the retrieval core of the `rag-agent` repository
(`src/rag/retrieval/retriever.py`, `reranker.py`, `compressor.py`,
`src/rag/ingestion/chunker.py`) and proofs of the spec's claims about it.

Python strings are modelled as Lean `String` (lists of unicode code points,
matching Python's character-indexed semantics), Python floats as `ℚ`
(the float literals appearing in the code - 0.7, 0.3, 0.1, ... - are exact
and the claims are about order and arithmetic structure, not rounding),
and external collaborators (the vector store, embedding provider, LLM
provider, cross-encoder model) as oracle function parameters.
-/

/-! ## Python string primitives -/

/-- Python's notion of whitespace for `str.strip` / `str.split` / `\s`
(ASCII range; the claims only involve ASCII text). -/
def pyIsSpace (c : Char) : Bool :=
  c = ' ' || c = '\t' || c = '\n' || c = '\r' || c = '\x0b' || c = '\x0c'

/-- `str.strip()` on a list of characters: drop whitespace from both ends. -/
def pyStripList (l : List Char) : List Char :=
  ((l.dropWhile pyIsSpace).reverse.dropWhile pyIsSpace).reverse

/-- Python `str.strip()`. -/
def pyStrip (s : String) : String :=
  String.mk (pyStripList s.data)

/-- Auxiliary for `str.split()` with no separator: accumulate the current
word (reversed) and break at whitespace runs, dropping empty words. -/
def pySplitAux : List Char → List Char → List (List Char)
  | acc, [] => if acc.isEmpty then [] else [acc.reverse]
  | acc, c :: rest =>
    if pyIsSpace c then
      if acc.isEmpty then pySplitAux [] rest
      else acc.reverse :: pySplitAux [] rest
    else pySplitAux (c :: acc) rest

/-- Python `str.split()` (no argument): split on whitespace runs, no empty
pieces. -/
def pySplitWs (s : String) : List String :=
  (pySplitAux [] s.data).map String.mk

/-- Python `str.lower()` (ASCII case folding suffices for the claims). -/
def pyLower (s : String) : String :=
  String.mk (s.data.map Char.toLower)

/-- Python `len(str)`: number of characters. -/
def pyLen (s : String) : Nat := s.data.length

/-! ## Data model

`Meta` is the metadata payload attached to passages.  The source keeps it as
a free-form dict; the retrieval core only ever reads and writes the fields
below, so a structured record with those fields (absent keys modelled by
`Option`/defaults matching the source's `.get(key, default)` calls) is a
faithful shallow embedding. -/

structure Meta where
  docId : String := ""
  chunkIndex : Nat := 0
  relevanceScore : Option ℚ := none
  rerankScore : Option ℚ := none
  originalScore : Option ℚ := none
  compressed : Bool := false
  originalLength : Option Nat := none
  compressedLength : Option Nat := none
  keptSentences : Option Nat := none
  totalSentences : Option Nat := none
  deriving Repr, DecidableEq

/-- A LangChain `Document`: page content plus metadata. -/
structure Doc where
  content : String
  meta : Meta
  deriving Repr, DecidableEq

/-- One hit returned by the vector store's `search`: content, payload
metadata, similarity score. -/
structure SearchResult where
  content : String
  metadata : Meta
  score : ℚ
  deriving Repr, DecidableEq

/-! ## Stable sorting

Python's `list.sort(key=k)` / `sorted(..., key=k, reverse=True)` is a stable
sort; a stable sort is uniquely determined by the key preorder, so the
insertion sorts below (which place an element after every earlier element
whose key does not force it later) compute exactly the same lists. -/

/-- Insert into a descending-by-key sorted list, after all elements with key
`≥` (so equal keys keep their earlier relative order). -/
def insertDescBy {α β : Type} [LinearOrder β] (key : α → β) (a : α) :
    List α → List α
  | [] => [a]
  | b :: l => if key b < key a then a :: b :: l else b :: insertDescBy key a l

/-- Stable sort, descending by key: Python `sort(key=key, reverse=True)`. -/
def sortDescBy {α β : Type} [LinearOrder β] (key : α → β) (l : List α) :
    List α :=
  l.foldl (fun acc a => insertDescBy key a acc) []

/-- Insert into an ascending-by-key sorted list, after all elements with key
`≤` (so equal keys keep their earlier relative order). -/
def insertAscBy {α β : Type} [LinearOrder β] (key : α → β) (a : α) :
    List α → List α
  | [] => [a]
  | b :: l => if key a < key b then a :: b :: l else b :: insertAscBy key a l

/-- Stable sort, ascending by key: Python `sort(key=key)`. -/
def sortAscBy {α β : Type} [LinearOrder β] (key : α → β) (l : List α) :
    List α :=
  l.foldl (fun acc a => insertAscBy key a acc) []

theorem insertDescBy_perm {α β : Type} [LinearOrder β] (key : α → β) (a : α)
    (l : List α) : List.Perm (insertDescBy key a l) (a :: l) := by
  induction l with
  | nil => exact List.Perm.refl _
  | cons b t ih =>
    simp only [insertDescBy]
    split
    · exact List.Perm.refl _
    · exact (ih.cons b).trans (List.Perm.swap a b t)

theorem sortDescBy_perm {α β : Type} [LinearOrder β] (key : α → β)
    (l : List α) : List.Perm (sortDescBy key l) l := by
  suffices h : ∀ (l acc : List α),
      List.Perm (l.foldl (fun acc a => insertDescBy key a acc) acc)
        (acc ++ l) by
    simpa using h l []
  intro l
  induction l with
  | nil => intro acc; simp
  | cons a t ih =>
    intro acc
    simp only [List.foldl_cons]
    exact ((ih (insertDescBy key a acc)).trans
        ((insertDescBy_perm key a acc).append_right t)).trans
      (by simpa using (@List.perm_middle _ a acc t).symm)

theorem mem_insertDescBy {α β : Type} [LinearOrder β] {key : α → β} {a x : α}
    {l : List α} : x ∈ insertDescBy key a l ↔ x = a ∨ x ∈ l := by
  rw [(insertDescBy_perm key a l).mem_iff, List.mem_cons]

theorem insertDescBy_pairwise {α β : Type} [LinearOrder β] {key : α → β}
    (a : α) {l : List α} (h : l.Pairwise (fun x y => key y ≤ key x)) :
    (insertDescBy key a l).Pairwise (fun x y => key y ≤ key x) := by
  induction l with
  | nil => simp [insertDescBy]
  | cons b t ih =>
    rw [List.pairwise_cons] at h
    simp only [insertDescBy]
    split
    · rename_i hba
      refine List.pairwise_cons.2 ⟨?_, List.pairwise_cons.2 h⟩
      intro y hy
      rcases List.mem_cons.1 hy with rfl | hyt
      · exact le_of_lt hba
      · exact le_trans (h.1 y hyt) (le_of_lt hba)
    · rename_i hba
      refine List.pairwise_cons.2 ⟨?_, ih h.2⟩
      intro y hy
      rcases mem_insertDescBy.1 hy with rfl | hyt
      · exact le_of_not_lt hba
      · exact h.1 y hyt

theorem sortDescBy_pairwise {α β : Type} [LinearOrder β] (key : α → β)
    (l : List α) : (sortDescBy key l).Pairwise (fun x y => key y ≤ key x) := by
  suffices h : ∀ (l acc : List α),
      acc.Pairwise (fun x y => key y ≤ key x) →
      (l.foldl (fun acc a => insertDescBy key a acc) acc).Pairwise
        (fun x y => key y ≤ key x) by
    exact h l [] (by simp)
  intro l
  induction l with
  | nil => intro acc h; simpa using h
  | cons a t ih => intro acc h; exact ih _ (insertDescBy_pairwise a h)

theorem insertAscBy_perm {α β : Type} [LinearOrder β] (key : α → β) (a : α)
    (l : List α) : List.Perm (insertAscBy key a l) (a :: l) := by
  induction l with
  | nil => exact List.Perm.refl _
  | cons b t ih =>
    simp only [insertAscBy]
    split
    · exact List.Perm.refl _
    · exact (ih.cons b).trans (List.Perm.swap a b t)

theorem sortAscBy_perm {α β : Type} [LinearOrder β] (key : α → β)
    (l : List α) : List.Perm (sortAscBy key l) l := by
  suffices h : ∀ (l acc : List α),
      List.Perm (l.foldl (fun acc a => insertAscBy key a acc) acc)
        (acc ++ l) by
    simpa using h l []
  intro l
  induction l with
  | nil => intro acc; simp
  | cons a t ih =>
    intro acc
    simp only [List.foldl_cons]
    exact ((ih (insertAscBy key a acc)).trans
        ((insertAscBy_perm key a acc).append_right t)).trans
      (by simpa using (@List.perm_middle _ a acc t).symm)

theorem mem_insertAscBy {α β : Type} [LinearOrder β] {key : α → β} {a x : α}
    {l : List α} : x ∈ insertAscBy key a l ↔ x = a ∨ x ∈ l := by
  rw [(insertAscBy_perm key a l).mem_iff, List.mem_cons]

theorem insertAscBy_pairwise {α β : Type} [LinearOrder β] {key : α → β}
    (a : α) {l : List α} (h : l.Pairwise (fun x y => key x ≤ key y)) :
    (insertAscBy key a l).Pairwise (fun x y => key x ≤ key y) := by
  induction l with
  | nil => simp [insertAscBy]
  | cons b t ih =>
    rw [List.pairwise_cons] at h
    simp only [insertAscBy]
    split
    · rename_i hab
      refine List.pairwise_cons.2 ⟨?_, List.pairwise_cons.2 h⟩
      intro y hy
      rcases List.mem_cons.1 hy with rfl | hyt
      · exact le_of_lt hab
      · exact le_trans (le_of_lt hab) (h.1 y hyt)
    · rename_i hab
      refine List.pairwise_cons.2 ⟨?_, ih h.2⟩
      intro y hy
      rcases mem_insertAscBy.1 hy with rfl | hyt
      · exact le_of_not_lt hab
      · exact h.1 y hyt

theorem sortAscBy_pairwise {α β : Type} [LinearOrder β] (key : α → β)
    (l : List α) : (sortAscBy key l).Pairwise (fun x y => key x ≤ key y) := by
  suffices h : ∀ (l acc : List α),
      acc.Pairwise (fun x y => key x ≤ key y) →
      (l.foldl (fun acc a => insertAscBy key a acc) acc).Pairwise
        (fun x y => key x ≤ key y) by
    exact h l [] (by simp)
  intro l
  induction l with
  | nil => intro acc h; simpa using h
  | cons a t ih => intro acc h; exact ih _ (insertAscBy_pairwise a h)

/-! ## ContextualRetriever.add_context

`retriever.py` lines 244-253: append the message, then truncate the buffer
to its last 10 entries when it exceeds 10. -/

def ContextualRetriever.add_context (buf : List String) (message : String) :
    List String :=
  let b := buf ++ [message]
  if 10 < b.length then b.drop (b.length - 10) else b

/-- The buffer of a fresh retriever after a sequence of `add_context` calls. -/
def ContextualRetriever.context_after (messages : List String) : List String :=
  messages.foldl ContextualRetriever.add_context []

theorem context_after_eq (messages : List String) :
    ContextualRetriever.context_after messages =
      messages.drop (messages.length - 10) := by
  induction messages using List.reverseRecOn with
  | nil => rfl
  | append_singleton ms m ih =>
    unfold ContextualRetriever.context_after at ih ⊢
    rw [List.foldl_append, List.foldl_cons, List.foldl_nil, ih]
    unfold ContextualRetriever.add_context
    by_cases h : ms.length ≤ 9
    · have h1 : ms.length - 10 = 0 := by omega
      have h2 : (ms ++ [m]).length - 10 = 0 := by simp; omega
      simp only [h1, h2, List.drop_zero]
      rw [if_neg]
      simp
      omega
    · have h10 : 10 ≤ ms.length := by omega
      have hlen : (ms.drop (ms.length - 10) ++ [m]).length = 11 := by
        simp; omega
      rw [if_pos (by rw [hlen]; omega)]
      rw [hlen]
      rw [List.drop_append_of_le_length
        (by simp only [List.length_drop]; omega)]
      rw [List.drop_append_of_le_length
        (by simp only [List.length_append, List.length_cons,
          List.length_nil]; omega)]
      rw [List.drop_drop]
      congr 2
      simp only [List.length_append, List.length_cons, List.length_nil]
      omega

/-- C7: The contextual retriever's conversation buffer never holds more than
10 entries: after any sequence of `add_context` calls on a fresh retriever
the buffer is exactly the `min n 10` most recently added messages, in their
original relative order (the final suffix of the message sequence). -/
theorem contextual_retriever_buffer_bound (messages : List String) :
    (ContextualRetriever.context_after messages).length =
        min messages.length 10 ∧
      ContextualRetriever.context_after messages =
        messages.drop (messages.length - 10) := by
  refine ⟨?_, context_after_eq messages⟩
  rw [context_after_eq messages, List.length_drop]
  omega

/-! ## HybridRetriever

`retriever.py` lines 109-183: fetch `2*top_k` semantic candidates (the
vector store is an external collaborator, so the candidate list is a
parameter), blend each semantic score with the keyword-overlap fraction,
deduplicate through a dict keyed by `f"{doc_id}_{chunk_index}"` (a later
candidate with the same key overwrites the earlier value, keeping the
first-insertion position, as Python dicts do), sort by combined score
descending and keep `top_k`. -/

/-- `set(s.lower().split())`: Python set modelled as the deduplicated word
list (membership and cardinality agree with the set). -/
def pyTermSet (s : String) : List String :=
  (pySplitWs (pyLower s)).dedup

/-- `len(query_terms & content_terms) / max(len(query_terms), 1)` from the
body of `HybridRetriever._aget_relevant_documents`. -/
def termOverlap (queryTerms : List String) (content : String) : ℚ :=
  let contentTerms := pyTermSet content
  ((queryTerms.filter (fun t => t ∈ contentTerms)).length : ℚ) /
    ((max queryTerms.length 1 : Nat) : ℚ)

/-- `semantic_score * semantic_weight + term_overlap * keyword_weight`. -/
def combinedScore (sw kw : ℚ) (queryTerms : List String)
    (r : SearchResult) : ℚ :=
  r.score * sw + termOverlap queryTerms r.content * kw

/-- The dict key `f"{doc_id}_{chunk_index}"`. -/
def dedupKey (m : Meta) : String :=
  m.docId ++ "_" ++ toString m.chunkIndex

/-- Insertion into a Python dict rendered as an association list: an
existing key keeps its position and gets the new value; a new key goes to
the end. -/
def dictInsert {K V : Type} [DecidableEq K] (k : K) (v : V) :
    List (K × V) → List (K × V)
  | [] => [(k, v)]
  | p :: rest =>
    if p.1 = k then (p.1, v) :: rest else p :: dictInsert k v rest

/-- `HybridRetriever._aget_relevant_documents` (retriever.py 109-183). -/
def HybridRetriever.aget_relevant_documents (sw kw : ℚ) (top_k : Nat)
    (query : String) (semanticResults : List SearchResult) : List Doc :=
  let queryTerms := pyTermSet query
  let scoredDocs := semanticResults.foldl
    (fun acc r =>
      dictInsert (dedupKey r.metadata)
        (⟨r.content, r.metadata, combinedScore sw kw queryTerms r⟩ :
          SearchResult) acc)
    []
  let sortedDocs :=
    (sortDescBy (fun v : SearchResult => v.score)
      (scoredDocs.map Prod.snd)).take top_k
  sortedDocs.map (fun v =>
    (⟨v.content, { v.metadata with relevanceScore := some v.score }⟩ : Doc))

/-- The `HybridRetriever` pydantic field defaults (retriever.py 88-90). -/
structure HybridRetrieverFields where
  semantic_weight : ℚ := 7/10
  keyword_weight : ℚ := 3/10
  top_k : Nat := 5

theorem mem_dictInsert {K V : Type} [DecidableEq K] {k : K} {v : V}
    {l : List (K × V)} {p : K × V} (h : p ∈ dictInsert k v l) :
    p = (k, v) ∨ p ∈ l := by
  induction l with
  | nil => simpa [dictInsert] using h
  | cons q rest ih =>
    simp only [dictInsert] at h
    split at h
    · rename_i hq
      rcases List.mem_cons.1 h with rfl | hrest
      · exact Or.inl (by rw [hq])
      · exact Or.inr (List.mem_cons_of_mem q hrest)
    · rcases List.mem_cons.1 h with rfl | hrest
      · exact Or.inr (List.mem_cons_self _ _)
      · rcases ih hrest with h1 | h2
        · exact Or.inl h1
        · exact Or.inr (List.mem_cons_of_mem _ h2)

theorem mem_keys_dictInsert {K V : Type} [DecidableEq K] {k a : K} {v : V}
    {l : List (K × V)} (h : a ∈ (dictInsert k v l).map Prod.fst) :
    a = k ∨ a ∈ l.map Prod.fst := by
  rcases List.mem_map.1 h with ⟨p, hp, rfl⟩
  rcases mem_dictInsert hp with rfl | hpl
  · exact Or.inl rfl
  · exact Or.inr (List.mem_map_of_mem Prod.fst hpl)

theorem keys_nodup_dictInsert {K V : Type} [DecidableEq K] {k : K} {v : V}
    {l : List (K × V)} (h : (l.map Prod.fst).Nodup) :
    ((dictInsert k v l).map Prod.fst).Nodup := by
  induction l with
  | nil => simp [dictInsert]
  | cons q rest ih =>
    simp only [List.map_cons, List.nodup_cons] at h
    simp only [dictInsert]
    split
    · rename_i hq
      simpa [List.nodup_cons] using h
    · rename_i hq
      simp only [List.map_cons, List.nodup_cons]
      refine ⟨?_, ih h.2⟩
      intro hmem
      rcases mem_keys_dictInsert hmem with rfl | hk
      · exact hq rfl
      · exact h.1 hk

theorem mem_foldl_dictInsert {K V γ : Type} [DecidableEq K] (key : γ → K)
    (val : γ → V) :
    ∀ (l : List γ) (acc : List (K × V)) (p : K × V),
      p ∈ l.foldl (fun acc r => dictInsert (key r) (val r) acc) acc →
      (∃ r ∈ l, p = (key r, val r)) ∨ p ∈ acc := by
  intro l
  induction l with
  | nil => intro acc p h; exact Or.inr h
  | cons r t ih =>
    intro acc p h
    simp only [List.foldl_cons] at h
    rcases ih _ p h with ⟨r₁, hr₁, rfl⟩ | hp
    · exact Or.inl ⟨r₁, List.mem_cons_of_mem r hr₁, rfl⟩
    · rcases mem_dictInsert hp with rfl | hacc
      · exact Or.inl ⟨r, List.mem_cons_self r t, rfl⟩
      · exact Or.inr hacc

theorem keys_nodup_foldl_dictInsert {K V γ : Type} [DecidableEq K]
    (key : γ → K) (val : γ → V) :
    ∀ (l : List γ) (acc : List (K × V)),
      (acc.map Prod.fst).Nodup →
      ((l.foldl (fun acc r => dictInsert (key r) (val r) acc) acc).map
        Prod.fst).Nodup := by
  intro l
  induction l with
  | nil => intro acc h; exact h
  | cons r t ih =>
    intro acc h
    simp only [List.foldl_cons]
    exact ih _ (keys_nodup_dictInsert h)

/-- C1: For every query and every set of semantic candidates, the hybrid
retriever assigns each candidate the combined score
`semantic_weight * semantic_score + keyword_weight * overlap_fraction`
(the fraction of distinct lower-cased whitespace-tokenized query terms
present in the candidate text), deduplicates candidates by
`(doc_id, chunk_index)`, sorts descending by combined score, and returns at
most `top_k` passages; the configured defaults are 0.7 / 0.3. -/
theorem hybrid_retriever_spec (sw kw : ℚ) (top_k : Nat) (query : String)
    (semanticResults : List SearchResult) :
    (HybridRetriever.aget_relevant_documents sw kw top_k query
        semanticResults).length ≤ top_k ∧
    (HybridRetriever.aget_relevant_documents sw kw top_k query
        semanticResults).Pairwise
      (fun a b =>
        b.meta.relevanceScore.getD 0 ≤ a.meta.relevanceScore.getD 0) ∧
    (∀ d ∈ HybridRetriever.aget_relevant_documents sw kw top_k query
        semanticResults,
      ∃ r ∈ semanticResults,
        d = (⟨r.content,
              { r.metadata with
                relevanceScore :=
                  some (combinedScore sw kw (pyTermSet query) r) }⟩ :
              Doc)) ∧
    (HybridRetriever.aget_relevant_documents sw kw top_k query
        semanticResults).Pairwise
      (fun a b => dedupKey a.meta ≠ dedupKey b.meta) ∧
    ({} : HybridRetrieverFields).semantic_weight = 7/10 ∧
    ({} : HybridRetrieverFields).keyword_weight = 3/10 := by
  unfold HybridRetriever.aget_relevant_documents
  set qt := pyTermSet query with hqt
  set scored := semanticResults.foldl
    (fun acc r =>
      dictInsert (dedupKey r.metadata)
        (⟨r.content, r.metadata, combinedScore sw kw qt r⟩ : SearchResult)
        acc)
    [] with hscored
  set values := scored.map Prod.snd with hvalues
  set sorted := sortDescBy (fun v : SearchResult => v.score) values
    with hsorted
  have hmem_scored : ∀ p ∈ scored,
      ∃ r ∈ semanticResults,
        p = (dedupKey r.metadata,
          (⟨r.content, r.metadata, combinedScore sw kw qt r⟩ :
            SearchResult)) := by
    intro p hp
    rcases mem_foldl_dictInsert
        (fun r : SearchResult => dedupKey r.metadata)
        (fun r : SearchResult =>
          (⟨r.content, r.metadata, combinedScore sw kw qt r⟩ : SearchResult))
        semanticResults [] p hp with h | h
    · exact h
    · simp at h
  refine ⟨?_, ?_, ?_, ?_, rfl, rfl⟩
  · exact Nat.le_trans
      (Nat.le_of_eq (List.length_map _ _))
      (List.length_take_le top_k sorted)
  · have h1 : (sorted.take top_k).Pairwise
        (fun a b : SearchResult => b.score ≤ a.score) :=
      (sortDescBy_pairwise (fun v : SearchResult => v.score) values).sublist
        (List.take_sublist top_k sorted)
    exact List.pairwise_map.2 (by simpa using h1)
  · intro d hd
    rcases List.mem_map.1 hd with ⟨v, hv, rfl⟩
    have hv2 : v ∈ values :=
      ((sortDescBy_perm (fun v : SearchResult => v.score) values).mem_iff).1
        (List.take_subset top_k sorted hv)
    rcases List.mem_map.1 hv2 with ⟨p, hp, rfl⟩
    rcases hmem_scored p hp with ⟨r, hr, rfl⟩
    exact ⟨r, hr, rfl⟩
  · have hkeys : (scored.map Prod.fst).Nodup :=
      keys_nodup_foldl_dictInsert _ _ semanticResults [] (by simp)
    have hmapeq : scored.map (fun p => dedupKey p.2.metadata) =
        scored.map Prod.fst := by
      refine List.map_congr_left ?_
      intro p hp
      rcases hmem_scored p hp with ⟨r, hr, rfl⟩
      rfl
    have hvals : (values.map (fun v => dedupKey v.metadata)).Nodup := by
      rw [hvalues, List.map_map]
      exact hmapeq ▸ hkeys
    have hsortnd : (sorted.map (fun v => dedupKey v.metadata)).Nodup :=
      (((sortDescBy_perm (fun v : SearchResult => v.score) values).map
        (fun v => dedupKey v.metadata)).nodup_iff).2 hvals
    have htknd : ((sorted.take top_k).map
        (fun v => dedupKey v.metadata)).Nodup :=
      hsortnd.sublist ((List.take_sublist top_k sorted).map _)
    have hpw := List.pairwise_map.1 htknd
    exact List.pairwise_map.2 hpw

/-! ## Rerankers

`reranker.py`.  The cross-encoder model (`self._model.predict`), the Cohere
endpoint (`client.rerank`) and the LLM (`llm.ainvoke(...).content`) are
external collaborators, passed as oracle functions.  All three strategies
end the same way: sort the scored documents by score descending (Python's
stable sort), truncate, and attach `rerank_score` / `original_score` to a
copy of each document's metadata. -/

/-- Build the reranked `Document` of some score and original document:
`{**doc.metadata, "rerank_score": score, "original_score":
doc.metadata.get("relevance_score", 0)}`. -/
def attachRerank (score : ℚ) (d : Doc) : Doc :=
  ⟨d.content,
    { d.meta with
      rerankScore := some score,
      originalScore := some (d.meta.relevanceScore.getD 0) }⟩

/-- Python's `a or b` for the optional-integer idiom
`top_k or self.top_k or len(documents)`: `None` and `0` are falsy. -/
def pyOrNat (a : Option Nat) (b : Nat) : Nat :=
  match a with
  | some n => if n = 0 then b else n
  | none => b

/-- `CrossEncoderReranker.rerank` (reranker.py 61-121).  `predict` stands
for `self._model.predict` on the `(query, content)` pairs; the empty-input
check precedes model initialization, so the result of the embedding does
not depend on `predict` at all when `documents` is empty. -/
def CrossEncoderReranker.rerank
    (predict : List (String × String) → List ℚ) (query : String)
    (documents : List Doc) (top_k self_top_k : Option Nat) : List Doc :=
  if documents.isEmpty then []
  else
    let k := pyOrNat top_k (pyOrNat self_top_k documents.length)
    let pairs := documents.map (fun d => (query, d.content))
    let scores := predict pairs
    let scored := documents.zip scores
    let sorted := sortDescBy (fun p : Doc × ℚ => p.2) scored
    (sorted.take k).map (fun p => attachRerank p.2 p.1)

/-- `CohereReranker.arerank` (reranker.py 183-236).  `service` stands for
`client.rerank(query, documents, top_n, model).results`, a list of
(index, relevance_score) pairs; `documents[result.index]` raises on an
out-of-range index, modelled by `none`. -/
def CohereReranker.arerank
    (service : String → List String → Nat → List (Nat × ℚ)) (query : String)
    (documents : List Doc) (top_k self_top_k : Option Nat) :
    Option (List Doc) :=
  if documents.isEmpty then some []
  else
    let k := pyOrNat top_k (pyOrNat self_top_k documents.length)
    let texts := documents.map (fun d => d.content)
    let results := service query texts k
    results.mapM (fun r => (documents[r.1]?).map (fun d => attachRerank r.2 d))

/-- The `SCORING_PROMPT` template of `LLMReranker.arerank`, after
`.format(query=..., document=...)`. -/
def LLMReranker.scoring_prompt (query document : String) : String :=
  "Rate the relevance of this document to the query on a scale of 0-10.\nOnly respond with a single number.\n\nQuery: " ++
    query ++ "\n\nDocument:\n" ++ document ++ "\n\nRelevance score (0-10):"

/-- Numeric value of a digit string (most significant first). -/
def digitsToNat (l : List Char) : Nat :=
  l.foldl (fun n c => n * 10 + (c.toNat - '0'.toNat)) 0

/-- Exponent part of a float literal: `e`/`E` already consumed. -/
def pyFloatExp (mantissa : ℚ) (r : List Char) : Option ℚ :=
  let p : Int × List Char :=
    match r with
    | '+' :: r2 => (1, r2)
    | '-' :: r2 => (-1, r2)
    | r2 => (1, r2)
  let ed := p.2.takeWhile Char.isDigit
  let r2 := p.2.dropWhile Char.isDigit
  if ed.isEmpty || !r2.isEmpty then none
  else some (mantissa * (10 : ℚ) ^ (p.1 * (digitsToNat ed : Int)))

/-- `float(s)` on a stripped character list: optional sign, decimal digits
with an optional fractional part, optional exponent; anything else raises
`ValueError`, modelled by `none`.  (The special forms `inf`/`nan` and digit
underscores are accepted by Python but never returned by the scoring
prompt's intended "single number" answers; they are outside this model's
scope and would only make *more* strings parse.) -/
def pyFloatCore (l : List Char) : Option ℚ :=
  let ps : ℚ × List Char :=
    match l with
    | '+' :: r => (1, r)
    | '-' :: r => (-1, r)
    | r => (1, r)
  let ip := ps.2.takeWhile Char.isDigit
  let l2 := ps.2.dropWhile Char.isDigit
  let pf : List Char × List Char :=
    match l2 with
    | '.' :: r => (r.takeWhile Char.isDigit, r.dropWhile Char.isDigit)
    | r => ([], r)
  if ip.isEmpty && pf.1.isEmpty then none
  else
    let mantissa : ℚ :=
      ps.1 * ((digitsToNat ip : ℚ) +
        (digitsToNat pf.1 : ℚ) / (10 : ℚ) ^ pf.1.length)
    match pf.2 with
    | [] => some mantissa
    | 'e' :: r => pyFloatExp mantissa r
    | 'E' :: r => pyFloatExp mantissa r
    | _ => none

/-- Python `float(s)` (which strips surrounding whitespace itself). -/
def pyFloat (s : String) : Option ℚ :=
  pyFloatCore (pyStripList s.data)

/-- The score `LLMReranker.arerank` computes for one document:
`float(response.content.strip())` clamped to `[0, 10]`, or the default `5.0`
when parsing raises (`reranker.py` 321-326).  `llm` maps the prompt to
`response.content`. -/
def LLMReranker.score_of (llm : String → String) (query : String)
    (d : Doc) : ℚ :=
  match pyFloat (pyStrip (llm
      (LLMReranker.scoring_prompt query (d.content.take 1000)))) with
  | some v => max 0 (min 10 v)
  | none => 5

/-- `LLMReranker.arerank` (reranker.py 275-346). -/
def LLMReranker.arerank (llm : String → String) (query : String)
    (documents : List Doc) (top_k self_top_k : Option Nat) : List Doc :=
  if documents.isEmpty then []
  else
    let k := pyOrNat top_k (pyOrNat self_top_k documents.length)
    let scored := documents.map
      (fun d => (d, LLMReranker.score_of llm query d))
    let sorted := sortDescBy (fun p : Doc × ℚ => p.2) scored
    (sorted.take k).map (fun p => attachRerank (p.2 / 10) p.1)

theorem cross_rerank_mem {predict : List (String × String) → List ℚ}
    {query : String} {documents : List Doc} {top_k self_top_k : Option Nat}
    {d : Doc}
    (hd : d ∈ CrossEncoderReranker.rerank predict query documents top_k
      self_top_k) :
    ∃ p ∈ documents.zip
        (predict (documents.map (fun d => (query, d.content)))),
      d = attachRerank p.2 p.1 := by
  simp only [CrossEncoderReranker.rerank] at hd
  split at hd
  · simp at hd
  · rcases List.mem_map.1 hd with ⟨p, hp, rfl⟩
    exact ⟨p,
      ((sortDescBy_perm (fun p : Doc × ℚ => p.2) _).mem_iff).1
        (List.take_subset _ _ hp),
      rfl⟩

theorem llm_arerank_mem {llm : String → String} {query : String}
    {documents : List Doc} {top_k self_top_k : Option Nat} {d : Doc}
    (hd : d ∈ LLMReranker.arerank llm query documents top_k self_top_k) :
    ∃ d₀ ∈ documents,
      d = attachRerank (LLMReranker.score_of llm query d₀ / 10) d₀ := by
  simp only [LLMReranker.arerank] at hd
  split at hd
  · simp at hd
  · rcases List.mem_map.1 hd with ⟨p, hp, rfl⟩
    have hp2 : p ∈ documents.map
        (fun d => (d, LLMReranker.score_of llm query d)) :=
      ((sortDescBy_perm (fun p : Doc × ℚ => p.2) _).mem_iff).1
        (List.take_subset _ _ hp)
    rcases List.mem_map.1 hp2 with ⟨d₀, hd₀, rfl⟩
    exact ⟨d₀, hd₀, rfl⟩

theorem score_of_bounds (llm : String → String) (query : String) (d : Doc) :
    0 ≤ LLMReranker.score_of llm query d ∧
      LLMReranker.score_of llm query d ≤ 10 := by
  unfold LLMReranker.score_of
  cases pyFloat (pyStrip (llm
      (LLMReranker.scoring_prompt query (d.content.take 1000)))) with
  | none => norm_num
  | some v =>
    refine ⟨le_max_left 0 _, max_le (by norm_num) (min_le_left 10 v)⟩

/-- C6: For every query and every configuration, each reranker strategy
returns the empty list on an empty passage list; the result does not depend
on the external model / service / LLM oracle at all (the empty-input check
precedes lazy model initialization and every external call), and empty
input is not an error (the Cohere strategy, whose index lookups can fail,
still returns `some []`). -/
theorem rerank_empty_input
    (predict : List (String × String) → List ℚ)
    (service : String → List String → Nat → List (Nat × ℚ))
    (llm : String → String) (query : String)
    (top_k self_top_k : Option Nat) :
    CrossEncoderReranker.rerank predict query [] top_k self_top_k = [] ∧
    CohereReranker.arerank service query [] top_k self_top_k = some [] ∧
    LLMReranker.arerank llm query [] top_k self_top_k = [] :=
  ⟨rfl, rfl, rfl⟩

/-- C9: every passage returned by the LLM reranker carries a
`rerank_score` in `[0, 1]`: the parsed LLM answer is clamped to `[0, 10]`
(`max(0, min(10, score))`) before the `/ 10` normalization, and the
parse-failure default 5 also lies in that range. -/
theorem llm_rerank_score_in_unit_interval (llm : String → String)
    (query : String) (documents : List Doc)
    (top_k self_top_k : Option Nat) :
    ∀ d ∈ LLMReranker.arerank llm query documents top_k self_top_k,
      ∃ s : ℚ, d.meta.rerankScore = some s ∧ 0 ≤ s ∧ s ≤ 1 := by
  intro d hd
  rcases llm_arerank_mem hd with ⟨d₀, _, rfl⟩
  refine ⟨LLMReranker.score_of llm query d₀ / 10, rfl, ?_, ?_⟩
  · have h := (score_of_bounds llm query d₀).1
    positivity
  · have h := (score_of_bounds llm query d₀).2
    linarith

theorem llm_rerank_score_in_unit_interval_witness :
    ∃ s : ℚ,
      (attachRerank ((5 : ℚ)/10) (⟨"A", {}⟩ : Doc)).meta.rerankScore =
          some s ∧ 0 ≤ s ∧ s ≤ 1 := by
  have h5 : LLMReranker.score_of (fun _ => "abc") "q"
      (⟨"A", {}⟩ : Doc) = 5 := by
    unfold LLMReranker.score_of
    have hn : pyFloat (pyStrip ((fun _ : String => "abc")
        (LLMReranker.scoring_prompt "q"
          ((⟨"A", {}⟩ : Doc).content.take 1000)))) = none := by decide
    rw [hn]
  have hmem : attachRerank ((5 : ℚ)/10) (⟨"A", {}⟩ : Doc) ∈
      LLMReranker.arerank (fun _ => "abc") "q" [⟨"A", {}⟩] none none := by
    simp only [LLMReranker.arerank, List.isEmpty_cons, pyOrNat,
      List.length_cons, List.length_nil, List.map_cons, List.map_nil, h5,
      sortDescBy, insertDescBy, List.foldl_cons, List.foldl_nil,
      Bool.false_eq_true, if_false, List.take_succ_cons, List.take_nil,
      List.mem_cons]
    simp
  exact llm_rerank_score_in_unit_interval (fun _ => "abc") "q"
    [⟨"A", {}⟩] none none _ hmem

/-- C3: when the LLM's answer for one passage does not parse as a number,
that passage gets the neutral default score 5 (normalized: `rerank_score`
exactly 0.5) instead of an exception, and the whole batch is still scored
and returned (with the default `top_k = None`, every passage comes back and
every returned passage carries a rerank score). -/
theorem llm_rerank_parse_failure (llm : String → String) (query : String)
    (documents : List Doc) (d : Doc) (hd : d ∈ documents)
    (hfail : pyFloat (pyStrip (llm (LLMReranker.scoring_prompt query
      (d.content.take 1000)))) = none) :
    (LLMReranker.arerank llm query documents none none).length =
        documents.length ∧
    (∀ x ∈ LLMReranker.arerank llm query documents none none,
      x.meta.rerankScore.isSome = true) ∧
    ∃ x ∈ LLMReranker.arerank llm query documents none none,
      x.content = d.content ∧ x.meta.rerankScore = some (1/2) := by
  have hne : documents.isEmpty = false :=
    List.isEmpty_eq_false.2 (List.ne_nil_of_mem hd)
  have hscore : LLMReranker.score_of llm query d = 5 := by
    unfold LLMReranker.score_of
    rw [hfail]
  have hlen_sorted :
      (sortDescBy (fun p : Doc × ℚ => p.2)
        (documents.map (fun d => (d, LLMReranker.score_of llm query d)))).length =
      documents.length := by
    rw [(sortDescBy_perm (fun p : Doc × ℚ => p.2) _).length_eq,
      List.length_map]
  have hk : pyOrNat none (pyOrNat none documents.length) =
      documents.length := rfl
  refine ⟨?_, ?_, ?_⟩
  · simp only [LLMReranker.arerank, hne, Bool.false_eq_true, if_false, hk]
    rw [List.length_map, List.length_take, hlen_sorted]
    omega
  · intro x hx
    rcases llm_arerank_mem hx with ⟨d₀, _, rfl⟩
    rfl
  · refine ⟨attachRerank (LLMReranker.score_of llm query d / 10) d, ?_, rfl,
      ?_⟩
    · simp only [LLMReranker.arerank, hne, Bool.false_eq_true, if_false, hk]
      have hmem1 : (d, LLMReranker.score_of llm query d) ∈
          documents.map (fun d => (d, LLMReranker.score_of llm query d)) :=
        List.mem_map_of_mem _ hd
      have hmem2 : (d, LLMReranker.score_of llm query d) ∈
          sortDescBy (fun p : Doc × ℚ => p.2)
            (documents.map (fun d => (d, LLMReranker.score_of llm query d))) :=
        ((sortDescBy_perm (fun p : Doc × ℚ => p.2) _).mem_iff).2 hmem1
      rw [List.take_of_length_le (by rw [hlen_sorted])]
      exact List.mem_map_of_mem _ hmem2
    · rw [hscore]
      norm_num [attachRerank]

theorem llm_rerank_parse_failure_witness :
    (LLMReranker.arerank (fun _ => "not a number") "q"
        [⟨"A", {}⟩, ⟨"B", {}⟩] none none).length = 2 ∧
    (∀ x ∈ LLMReranker.arerank (fun _ => "not a number") "q"
        [⟨"A", {}⟩, ⟨"B", {}⟩] none none,
      x.meta.rerankScore.isSome = true) ∧
    ∃ x ∈ LLMReranker.arerank (fun _ => "not a number") "q"
        [⟨"A", {}⟩, ⟨"B", {}⟩] none none,
      x.content = "A" ∧ x.meta.rerankScore = some (1/2) :=
  llm_rerank_parse_failure (fun _ => "not a number") "q"
    [⟨"A", {}⟩, ⟨"B", {}⟩] ⟨"A", {}⟩ (by simp) (by decide)

/-- C2 counterexample: the cross-encoder reranker stores the model's raw
score as `rerank_score` without any normalization, so a raw cross-encoder
score of 15 (cross-encoder logits are unbounded) is attached as-is - the
claim's "`rerank_score` (the new score, normalized to `[0,1]`)" is false at
this input. -/
theorem cross_encoder_score_not_normalized :
    (CrossEncoderReranker.rerank (fun _ => [15]) "q" [⟨"A", {}⟩] none
        none).map (fun d => d.meta.rerankScore) = [some 15] ∧
    ¬ ((15 : ℚ) ≤ 1) := by
  constructor
  · simp [CrossEncoderReranker.rerank, pyOrNat, sortDescBy, insertDescBy,
      attachRerank]
  · norm_num

/-- C2 (amended): each reranking strategy sorts the passages descending by
its newly computed score, keeps at most the resolved `top_k`, and attaches
`rerank_score` (the new score: the raw model score for the cross-encoder,
the clamped LLM answer normalized to `[0,1]` by `/10` for the LLM strategy)
together with `original_score` (the prior `relevance_score`, default 0);
`relevance_score` itself is never overwritten.  On cross-encoder scores
`[0.9, 0.5, 0.7]` for docs `[A, B, C]` with `top_k = 2` the result is
`[A, C]` in that order. -/
theorem rerank_sort_truncate_attach
    (predict : List (String × String) → List ℚ) (llm : String → String)
    (query : String) (documents : List Doc)
    (top_k self_top_k : Option Nat) :
    (CrossEncoderReranker.rerank predict query documents top_k
        self_top_k).length ≤
      pyOrNat top_k (pyOrNat self_top_k documents.length) ∧
    (CrossEncoderReranker.rerank predict query documents top_k
        self_top_k).Pairwise
      (fun a b =>
        b.meta.rerankScore.getD 0 ≤ a.meta.rerankScore.getD 0) ∧
    (∀ d ∈ CrossEncoderReranker.rerank predict query documents top_k
        self_top_k,
      ∃ p ∈ documents.zip
          (predict (documents.map (fun d => (query, d.content)))),
        d.content = p.1.content ∧
        d.meta.rerankScore = some p.2 ∧
        d.meta.originalScore = some (p.1.meta.relevanceScore.getD 0) ∧
        d.meta.relevanceScore = p.1.meta.relevanceScore) ∧
    (LLMReranker.arerank llm query documents top_k self_top_k).length ≤
      pyOrNat top_k (pyOrNat self_top_k documents.length) ∧
    (LLMReranker.arerank llm query documents top_k self_top_k).Pairwise
      (fun a b =>
        b.meta.rerankScore.getD 0 ≤ a.meta.rerankScore.getD 0) ∧
    (∀ d ∈ LLMReranker.arerank llm query documents top_k self_top_k,
      ∃ d₀ ∈ documents,
        d.content = d₀.content ∧
        d.meta.rerankScore =
          some (LLMReranker.score_of llm query d₀ / 10) ∧
        d.meta.originalScore = some (d₀.meta.relevanceScore.getD 0) ∧
        d.meta.relevanceScore = d₀.meta.relevanceScore) ∧
    (CrossEncoderReranker.rerank (fun _ => [9/10, 5/10, 7/10]) query
        [⟨"A", {}⟩, ⟨"B", {}⟩, ⟨"C", {}⟩] (some 2) none).map
      (fun d => (d.content, d.meta.rerankScore)) =
      [("A", some (9/10)), ("C", some (7/10))] := by
  refine ⟨?_, ?_, ?_, ?_, ?_, ?_, ?_⟩
  · simp only [CrossEncoderReranker.rerank]
    split
    · simp
    · exact Nat.le_trans (Nat.le_of_eq (List.length_map _ _))
        (List.length_take_le _ _)
  · simp only [CrossEncoderReranker.rerank]
    split
    · simp
    · have h := (sortDescBy_pairwise (fun p : Doc × ℚ => p.2)
        (documents.zip
          (predict (documents.map (fun d => (query, d.content)))))).sublist
        (List.take_sublist
          (pyOrNat top_k (pyOrNat self_top_k documents.length)) _)
      exact List.pairwise_map.2 (by simpa [attachRerank] using h)
  · intro d hd
    rcases cross_rerank_mem hd with ⟨p, hp, rfl⟩
    exact ⟨p, hp, rfl, rfl, rfl, rfl⟩
  · simp only [LLMReranker.arerank]
    split
    · simp
    · exact Nat.le_trans (Nat.le_of_eq (List.length_map _ _))
        (List.length_take_le _ _)
  · simp only [LLMReranker.arerank]
    split
    · simp
    · have h := (sortDescBy_pairwise (fun p : Doc × ℚ => p.2)
        (documents.map
          (fun d => (d, LLMReranker.score_of llm query d)))).sublist
        (List.take_sublist
          (pyOrNat top_k (pyOrNat self_top_k documents.length)) _)
      refine List.pairwise_map.2 ?_
      refine h.imp ?_
      intro p q hpq
      simp only [attachRerank, Option.getD_some]
      gcongr
  · intro d hd
    rcases llm_arerank_mem hd with ⟨d₀, hd₀, rfl⟩
    exact ⟨d₀, hd₀, rfl, rfl, rfl, rfl⟩
  · norm_num [CrossEncoderReranker.rerank, pyOrNat, sortDescBy,
      insertDescBy, attachRerank]

/-! ## Sentence splitting

Both compressors share the same `_split_sentences`:
`re.split(r'(?<=[.!?])\s+', text)` followed by stripping each piece and
dropping empty ones.  The regex splits the text at every maximal whitespace
run whose preceding character is `.`, `!` or `?`; the state machine below
walks the characters once, with `inSep` true while consuming such a run. -/

def sentEndChar (c : Char) : Bool :=
  c = '.' || c = '!' || c = '?'

/-- One pass of `re.split(r'(?<=[.!?])\s+', ...)`: `acc` holds the current
piece reversed; a whitespace character after a sentence-ending character
ends the piece and starts a separator run. -/
def sentSplitAux : Bool → Char → List Char → List Char → List (List Char)
  | _, _, acc, [] => [acc.reverse]
  | inSep, prev, acc, c :: rest =>
    if inSep && pyIsSpace c then sentSplitAux true c acc rest
    else if !inSep && sentEndChar prev && pyIsSpace c then
      acc.reverse :: sentSplitAux true c [] rest
    else sentSplitAux false c (c :: acc) rest

/-- The raw pieces of `re.split(r'(?<=[.!?])\s+', s)` (the initial `prev`
is a space: position 0 has no preceding character, so no lookbehind match
there). -/
def rawSentencePieces (s : String) : List (List Char) :=
  sentSplitAux false ' ' [] s.data

/-- `_split_sentences` (compressor.py 171-177 and 290-295):
`[s.strip() for s in re.split(...) if s.strip()]`. -/
def split_sentences (s : String) : List String :=
  (((rawSentencePieces s).map pyStripList).filter
    (fun p => !p.isEmpty)).map String.mk

/-- `" ".join(l)`. -/
def joinSpace : List String → String
  | [] => ""
  | [s] => s
  | s :: rest => s ++ " " ++ joinSpace rest

/-! ## ExtractiveSummaryCompressor (compressor.py 266-422) -/

/-- `ExtractiveSummaryCompressor._score_sentence` (compressor.py 297-338). -/
def ExtractiveSummaryCompressor.score_sentence (sentence : String)
    (position total_sentences : Nat) (query_terms : List String) : ℚ :=
  let posScore : ℚ :=
    if position = 0 then 3/10
    else if position = total_sentences - 1 then 1/10
    else (1/10) *
      (1 - |((position : ℚ) - (total_sentences : ℚ)/2)| /
        (total_sentences : ℚ))
  let sentence_terms := pyTermSet sentence
  let overlap := (query_terms.filter (fun t => t ∈ sentence_terms)).length
  let overlapScore : ℚ :=
    (4/10) * ((overlap : ℚ) / ((max query_terms.length 1 : Nat) : ℚ))
  let word_count := (pySplitWs sentence).length
  let lenScore : ℚ :=
    if 10 ≤ word_count ∧ word_count ≤ 30 then 2/10
    else if word_count < 5 then -(1/10) else 0
  posScore + overlapScore + lenScore

/-- Python `int(q)` on a float: truncation toward zero. -/
def pyIntTrunc (q : ℚ) : ℤ :=
  if 0 ≤ q then ⌊q⌋ else ⌈q⌉

/-- The re-ordering key of `compress`: `{s: i for i, s in
enumerate(sentences)}` maps each sentence *text* to its **last** index
(later dict entries overwrite earlier ones), and `.get(x[0], 0)` defaults
to 0. -/
def origOrderKey (sentences : List String) (s : String) : Nat :=
  ((((sentences.enum.filter (fun p => p.2 = s)).map Prod.fst).getLast?).getD
    0)

/-- The `(sentence, score)` pairs `ExtractiveSummaryCompressor.compress`
keeps for one document, in their final order: score all sentences, stable
sort by score descending, take
`max(min_sentences, min(max_sentences, int(n * compression_ratio)))`,
stable re-sort by the text-keyed original position. -/
def ExtractiveSummaryCompressor.kept (query_terms : List String)
    (ratio : ℚ) (min_sentences max_sentences : Nat) (content : String) :
    List (String × ℚ) :=
  let sentences := split_sentences content
  let scored := sentences.enum.map
    (fun p => (p.2, ExtractiveSummaryCompressor.score_sentence p.2 p.1
      sentences.length query_terms))
  let sortedScored := sortDescBy (fun x : String × ℚ => x.2) scored
  let target_count := (max (min_sentences : ℤ) (min (max_sentences : ℤ)
    (pyIntTrunc ((sentences.length : ℚ) * ratio)))).toNat
  let top := sortedScored.take target_count
  sortAscBy (fun x : String × ℚ => origOrderKey sentences x.1) top

/-- The per-document body of `ExtractiveSummaryCompressor.compress`
(compressor.py 366-421). -/
def ExtractiveSummaryCompressor.compress_doc (query_terms : List String)
    (ratio : ℚ) (min_sentences max_sentences : Nat) (d : Doc) : Doc :=
  let sentences := split_sentences d.content
  if sentences.length ≤ min_sentences then d
  else
    let top := ExtractiveSummaryCompressor.kept query_terms ratio
      min_sentences max_sentences d.content
    let compressed_content := joinSpace (top.map Prod.fst)
    ⟨compressed_content,
      { d.meta with
        compressed := true,
        originalLength := some (pyLen d.content),
        compressedLength := some (pyLen compressed_content),
        keptSentences := some top.length,
        totalSentences := some sentences.length }⟩

/-- `ExtractiveSummaryCompressor.compress` (compressor.py 340-422). -/
def ExtractiveSummaryCompressor.compress (ratio : ℚ)
    (min_sentences max_sentences : Nat) (query : String)
    (documents : List Doc) : List Doc :=
  if documents.isEmpty then []
  else
    documents.map (ExtractiveSummaryCompressor.compress_doc
      (pyTermSet query) ratio min_sentences max_sentences)

/-! ## EmbeddingContextCompressor (compressor.py 137-263)

`sim s` stands for `self._cosine_similarity(query_embedding,
sentence_embedding)`: the composition of the external embedding provider
(one batched call per document) with the floating-point cosine.  The claim
settled against this embedding (C10) does not depend on similarity values,
only on the control flow around them. -/

/-- One iteration of the document loop of
`EmbeddingContextCompressor.compress` (compressor.py 222-261): documents
that split into zero sentences are skipped (`continue`), documents whose
sentences all miss the threshold are kept unmodified, the rest are rebuilt
from their top similar sentences in score order. -/
def EmbeddingContextCompressor.step (sim : String → ℚ)
    (similarity_threshold : ℚ) (max_sentences : Nat) (d : Doc)
    (acc : List Doc) : List Doc :=
  let sentences := split_sentences d.content
  if sentences.isEmpty then acc
  else
    let scored_sentences :=
      (sentences.map (fun s => (s, sim s))).filter
        (fun p => similarity_threshold ≤ p.2)
    let top_sentences :=
      (sortDescBy (fun p : String × ℚ => p.2) scored_sentences).take
        max_sentences
    if top_sentences.isEmpty then d :: acc
    else
      let compressed_content := joinSpace (top_sentences.map Prod.fst)
      (⟨compressed_content,
        { d.meta with
          compressed := true,
          originalLength := some (pyLen d.content),
          compressedLength := some (pyLen compressed_content),
          keptSentences := some top_sentences.length,
          totalSentences := some sentences.length }⟩ : Doc) :: acc

/-- `EmbeddingContextCompressor.compress` (compressor.py 192-263). -/
def EmbeddingContextCompressor.compress (sim : String → ℚ)
    (similarity_threshold : ℚ) (max_sentences : Nat) (_query : String)
    (documents : List Doc) : List Doc :=
  if documents.isEmpty then []
  else
    documents.foldr
      (EmbeddingContextCompressor.step sim similarity_threshold
        max_sentences) []

/-- C10: a passage whose content splits into zero sentences (e.g. empty or
whitespace-only content) is omitted from the embedding compressor's output
entirely - neither kept unmodified nor compressed - so this compressor can
silently reduce the passage count; the keep-original fallback fires only
when sentences exist but none clears the similarity threshold (second
conjunct). -/
theorem embedding_compressor_drops_sentenceless
    (sim : String → ℚ) (similarity_threshold : ℚ) (max_sentences : Nat)
    (query : String) (pre post : List Doc) (d : Doc)
    (h : split_sentences d.content = []) :
    EmbeddingContextCompressor.compress sim similarity_threshold
        max_sentences query (pre ++ d :: post) =
      EmbeddingContextCompressor.compress sim similarity_threshold
        max_sentences query (pre ++ post) ∧
    (∀ d₁ : Doc, split_sentences d₁.content ≠ [] →
      (∀ s ∈ split_sentences d₁.content, sim s < similarity_threshold) →
      EmbeddingContextCompressor.compress sim similarity_threshold
        max_sentences query [d₁] = [d₁]) := by
  constructor
  · have hstep : ∀ acc,
        EmbeddingContextCompressor.step sim similarity_threshold
          max_sentences d acc = acc := by
      intro acc
      simp [EmbeddingContextCompressor.step, h]
    by_cases hpp : (pre ++ post).isEmpty
    · rcases List.append_eq_nil.1 (List.isEmpty_iff.1 hpp) with ⟨rfl, rfl⟩
      simp [EmbeddingContextCompressor.compress, hstep]
    · have h1 : (pre ++ d :: post).isEmpty = false := by
        simp [List.isEmpty_iff]
      simp only [EmbeddingContextCompressor.compress, h1,
        Bool.false_eq_true, if_false, hpp, List.foldr_append,
        List.foldr_cons, hstep]
  · intro d₁ hne hmiss
    have hfilter : ((split_sentences d₁.content).map
        (fun s => (s, sim s))).filter
        (fun p => similarity_threshold ≤ p.2) = [] := by
      rw [List.filter_eq_nil_iff]
      intro p hp
      rcases List.mem_map.1 hp with ⟨s, hs, rfl⟩
      simpa using not_le.2 (hmiss s hs)
    have hne2 : ([d₁] : List Doc).isEmpty = false := by simp
    simp only [EmbeddingContextCompressor.compress, hne2,
      Bool.false_eq_true, if_false, List.foldr_cons, List.foldr_nil,
      EmbeddingContextCompressor.step, hfilter]
    simp [List.isEmpty_iff, hne, sortDescBy]

theorem embedding_compressor_drops_sentenceless_witness :
    EmbeddingContextCompressor.compress (fun _ => 1) 0 10 "q"
        ([] ++ (⟨"   ", {}⟩ : Doc) :: [⟨"Hello there.", {}⟩]) =
      EmbeddingContextCompressor.compress (fun _ => 1) 0 10 "q"
        ([] ++ [⟨"Hello there.", {}⟩]) ∧
    (∀ d₁ : Doc, split_sentences d₁.content ≠ [] →
      (∀ s ∈ split_sentences d₁.content, (fun _ : String => (1 : ℚ)) s < 0) →
      EmbeddingContextCompressor.compress (fun _ => 1) 0 10 "q" [d₁] =
        [d₁]) :=
  embedding_compressor_drops_sentenceless (fun _ => 1) 0 10 "q" []
    [⟨"Hello there.", {}⟩] ⟨"   ", {}⟩ (by decide)

/-! ## Length accounting for the sentence pipeline (towards C5)

For a list `l` of kept sentences, `(l.map pyLen).sum + l.length` bounds the
length of `" ".join(l)` plus one; the splitter never produces pieces whose
total (with one separator character each) exceeds the input length plus
one. -/

theorem pyLen_append (a b : String) : pyLen (a ++ b) = pyLen a + pyLen b := by
  simp [pyLen, String.data_append]

theorem pyStripList_length_le (l : List Char) :
    (pyStripList l).length ≤ l.length := by
  unfold pyStripList
  calc ((l.dropWhile pyIsSpace).reverse.dropWhile pyIsSpace).reverse.length
      = ((l.dropWhile pyIsSpace).reverse.dropWhile pyIsSpace).length := by
        simp
    _ ≤ (l.dropWhile pyIsSpace).reverse.length :=
        (List.dropWhile_sublist pyIsSpace).length_le
    _ = (l.dropWhile pyIsSpace).length := by simp
    _ ≤ l.length := (List.dropWhile_sublist pyIsSpace).length_le

theorem sentSplitAux_bound : ∀ (l : List Char) (inSep : Bool) (prev : Char)
    (acc : List Char),
    ((sentSplitAux inSep prev acc l).map List.length).sum +
      (sentSplitAux inSep prev acc l).length ≤
    acc.length + l.length + 1 := by
  intro l
  induction l with
  | nil =>
    intro inSep prev acc
    simp [sentSplitAux]
  | cons c rest ih =>
    intro inSep prev acc
    simp only [sentSplitAux]
    split
    · exact Nat.le_trans (ih true c acc)
        (by simp only [List.length_cons]; omega)
    · split
      · have h := ih true c []
        simp only [List.map_cons, List.sum_cons, List.length_cons,
          List.length_reverse, List.length_nil] at h ⊢
        omega
      · have h := ih false c (c :: acc)
        simp only [List.length_cons] at h ⊢
        omega

theorem strip_filter_bound (ps : List (List Char)) :
    ((((ps.map pyStripList).filter (fun p => !p.isEmpty)).map
        String.mk).map pyLen).sum +
      (((ps.map pyStripList).filter (fun p => !p.isEmpty)).map
        String.mk).length ≤
    (ps.map List.length).sum + ps.length := by
  induction ps with
  | nil => simp
  | cons p t ih =>
    simp only [List.map_cons, List.filter_cons, List.sum_cons,
      List.length_cons]
    split
    · simp only [List.map_cons, List.sum_cons, List.length_cons, pyLen]
      have h1 := pyStripList_length_le p
      omega
    · have h1 := pyStripList_length_le p
      omega

theorem split_sentences_bound (s : String) :
    ((split_sentences s).map pyLen).sum + (split_sentences s).length ≤
      pyLen s + 1 := by
  unfold split_sentences
  refine Nat.le_trans (strip_filter_bound (rawSentencePieces s)) ?_
  have h := sentSplitAux_bound s.data false ' ' []
  unfold rawSentencePieces
  simp only [List.length_nil] at h
  simpa [pyLen] using h

theorem joinSpace_len (l : List String) (h : l ≠ []) :
    pyLen (joinSpace l) + 1 = (l.map pyLen).sum + l.length := by
  induction l with
  | nil => exact absurd rfl h
  | cons s t ih =>
    cases t with
    | nil => simp [joinSpace, pyLen]
    | cons x t2 =>
      have : joinSpace (s :: x :: t2) = s ++ " " ++ joinSpace (x :: t2) :=
        rfl
      rw [this, pyLen_append, pyLen_append]
      have h2 := ih (by simp)
      simp only [List.map_cons, List.sum_cons, List.length_cons] at h2 ⊢
      have : pyLen " " = 1 := rfl
      omega

theorem sum_len_sublist {l₁ l₂ : List String} (h : l₁.Sublist l₂) :
    (l₁.map pyLen).sum + l₁.length ≤ (l₂.map pyLen).sum + l₂.length := by
  induction h with
  | slnil => simp
  | cons a h ih =>
    simp only [List.map_cons, List.sum_cons, List.length_cons]
    omega
  | cons₂ a h ih =>
    simp only [List.map_cons, List.sum_cons, List.length_cons]
    omega

theorem sum_len_perm {l₁ l₂ : List String} (h : List.Perm l₁ l₂) :
    (l₁.map pyLen).sum + l₁.length = (l₂.map pyLen).sum + l₂.length := by
  rw [(h.map pyLen).sum_eq, h.length_eq]

theorem kept_fst_quantity (query_terms : List String) (ratio : ℚ)
    (mn mx : Nat) (content : String) :
    (((ExtractiveSummaryCompressor.kept query_terms ratio mn mx
        content).map Prod.fst).map pyLen).sum +
      ((ExtractiveSummaryCompressor.kept query_terms ratio mn mx
        content).map Prod.fst).length ≤
    ((split_sentences content).map pyLen).sum +
      (split_sentences content).length := by
  simp only [ExtractiveSummaryCompressor.kept]
  set sentences := split_sentences content with hsent
  set scored := sentences.enum.map
    (fun p => (p.2, ExtractiveSummaryCompressor.score_sentence p.2 p.1
      sentences.length query_terms)) with hscored
  set target_count := (max (mn : ℤ) (min (mx : ℤ)
    (pyIntTrunc ((sentences.length : ℚ) * ratio)))).toNat with htarget
  set top := (sortDescBy (fun x : String × ℚ => x.2) scored).take
    target_count with htop
  have h1 := sum_len_perm
    ((sortAscBy_perm (fun x : String × ℚ => origOrderKey sentences x.1)
      top).map Prod.fst)
  rw [h1]
  have h2 : (top.map Prod.fst).Sublist
      ((sortDescBy (fun x : String × ℚ => x.2) scored).map Prod.fst) :=
    (List.take_sublist _ _).map Prod.fst
  refine Nat.le_trans (sum_len_sublist h2) ?_
  have h3 := sum_len_perm
    ((sortDescBy_perm (fun x : String × ℚ => x.2) scored).map Prod.fst)
  rw [h3]
  have h4 : scored.map Prod.fst = sentences := by
    rw [hscored, List.map_map]
    exact List.enum_map_snd sentences
  rw [h4]

/-- C5: each passage given to the extractive summary compressor either has
at most `min_sentences` sentences and is returned byte-identical (same
content, same metadata), or is actually compressed and its compressed
content is no longer than the original; the third conjunct ties the
per-document function to the list-level `compress` entry point. -/
theorem extractive_compressor_length_contract (ratio : ℚ)
    (min_sentences max_sentences : Nat) (query_terms : List String)
    (d : Doc) :
    ((split_sentences d.content).length ≤ min_sentences →
      ExtractiveSummaryCompressor.compress_doc query_terms ratio
        min_sentences max_sentences d = d) ∧
    (min_sentences < (split_sentences d.content).length →
      pyLen (ExtractiveSummaryCompressor.compress_doc query_terms ratio
        min_sentences max_sentences d).content ≤ pyLen d.content) ∧
    (∀ (query : String) (documents : List Doc),
      ExtractiveSummaryCompressor.compress ratio min_sentences
        max_sentences query documents =
      if documents.isEmpty then []
      else documents.map (ExtractiveSummaryCompressor.compress_doc
        (pyTermSet query) ratio min_sentences max_sentences)) := by
  refine ⟨?_, ?_, fun query documents => rfl⟩
  · intro h
    simp only [ExtractiveSummaryCompressor.compress_doc, if_pos h]
  · intro h
    simp only [ExtractiveSummaryCompressor.compress_doc,
      if_neg (not_le.2 h)]
    set kept := (ExtractiveSummaryCompressor.kept query_terms ratio
      min_sentences max_sentences d.content).map Prod.fst with hkept
    rcases List.eq_nil_or_concat kept with hnil | ⟨_, _, hne⟩
    · rw [hnil]
      simp [joinSpace, pyLen]
    · have hne2 : kept ≠ [] := by
        rw [hne]; exact (List.concat_ne_nil _ _)
      have hj := joinSpace_len kept hne2
      have hq := kept_fst_quantity query_terms ratio min_sentences
        max_sentences d.content
      have hb := split_sentences_bound d.content
      rw [← hkept] at hq
      omega

theorem enumFrom_filter_snd_eq_nil {t : List String} {s : String}
    (hs : s ∉ t) (n : Nat) :
    (List.enumFrom n t).filter (fun p => p.2 = s) = [] := by
  induction t generalizing n with
  | nil => rfl
  | cons a t2 ih =>
    simp only [List.enumFrom_cons, List.filter_cons]
    have ha : ¬(a = s) := fun h => hs (h ▸ List.mem_cons_self _ _)
    rw [if_neg (by simpa using ha)]
    exact ih (fun h => hs (List.mem_cons_of_mem _ h)) (n + 1)

theorem enumFrom_filter_snd (t : List String) (s : String)
    (hs : s ∈ t) (hnd : t.Nodup) : ∀ n : Nat,
    (List.enumFrom n t).filter (fun p => p.2 = s) =
      [(n + t.indexOf s, s)] := by
  induction t with
  | nil => cases hs
  | cons a t2 ih =>
    intro n
    simp only [List.enumFrom_cons, List.filter_cons]
    by_cases hb : a = s
    · subst hb
      rw [if_pos (by simp)]
      have hnotin : a ∉ t2 := (List.nodup_cons.1 hnd).1
      rw [enumFrom_filter_snd_eq_nil hnotin (n + 1)]
      simp [List.indexOf_cons_self]
    · rw [if_neg (by simpa using hb)]
      have hs2 : s ∈ t2 := by
        rcases List.mem_cons.1 hs with h | h
        · exact absurd h.symm hb
        · exact h
      rw [ih hs2 (List.nodup_cons.1 hnd).2 (n + 1),
        List.indexOf_cons_ne _ hb]
      have : n + 1 + t2.indexOf s = n + Nat.succ (t2.indexOf s) := by omega
      rw [this]

theorem origOrderKey_nodup (sentences : List String)
    (hnd : sentences.Nodup) (s : String) (hs : s ∈ sentences) :
    origOrderKey sentences s = sentences.indexOf s := by
  unfold origOrderKey
  rw [show sentences.enum = List.enumFrom 0 sentences from rfl,
    enumFrom_filter_snd sentences s hs hnd 0]
  simp

theorem mem_scored_form (query_terms : List String)
    (sentences : List String) (hnd : sentences.Nodup) (p : String × ℚ)
    (hp : p ∈ sentences.enum.map (fun q => (q.2,
      ExtractiveSummaryCompressor.score_sentence q.2 q.1 sentences.length
        query_terms))) :
    p.1 ∈ sentences ∧
    p = (p.1, ExtractiveSummaryCompressor.score_sentence p.1
      (sentences.indexOf p.1) sentences.length query_terms) := by
  rcases List.mem_map.1 hp with ⟨q, hq, rfl⟩
  have h1 : sentences[q.1]? = some q.2 := List.mem_enum_iff_getElem?.1 hq
  rcases List.getElem?_eq_some.1 h1 with ⟨hlt, hget⟩
  have hmem : q.2 ∈ sentences := by
    rw [← hget]; exact List.getElem_mem hlt
  have hidx : sentences.indexOf q.2 = q.1 := by
    conv_lhs => rw [← hget]
    exact List.indexOf_getElem hnd q.1 hlt
  refine ⟨hmem, ?_⟩
  simp only [hidx]

theorem kept_facts (query_terms : List String) (ratio : ℚ) (mn mx : Nat)
    (content : String) (hnd : (split_sentences content).Nodup) :
    (ExtractiveSummaryCompressor.kept query_terms ratio mn mx
        content).length =
      min ((max (mn : ℤ) (min (mx : ℤ)
        (pyIntTrunc (((split_sentences content).length : ℚ) *
          ratio)))).toNat) (split_sentences content).length ∧
    (∀ s ∈ (ExtractiveSummaryCompressor.kept query_terms ratio mn mx
        content).map Prod.fst, s ∈ split_sentences content) ∧
    ((ExtractiveSummaryCompressor.kept query_terms ratio mn mx
        content).map Prod.fst).Pairwise
      (fun a b => (split_sentences content).indexOf a <
        (split_sentences content).indexOf b) ∧
    (∀ s ∈ (ExtractiveSummaryCompressor.kept query_terms ratio mn mx
        content).map Prod.fst,
      ∀ t ∈ split_sentences content,
        t ∉ (ExtractiveSummaryCompressor.kept query_terms ratio mn mx
          content).map Prod.fst →
        ExtractiveSummaryCompressor.score_sentence t
            ((split_sentences content).indexOf t)
            (split_sentences content).length query_terms ≤
          ExtractiveSummaryCompressor.score_sentence s
            ((split_sentences content).indexOf s)
            (split_sentences content).length query_terms) := by
  simp only [ExtractiveSummaryCompressor.kept]
  set pts := split_sentences content with hpts
  set n := pts.length with hn
  set scored := pts.enum.map (fun q => (q.2,
    ExtractiveSummaryCompressor.score_sentence q.2 q.1 n query_terms))
    with hscored
  set sortedD := sortDescBy (fun x : String × ℚ => x.2) scored with hsortedD
  set target := (max (mn : ℤ) (min (mx : ℤ)
    (pyIntTrunc ((n : ℚ) * ratio)))).toNat with htargetdef
  set top := sortedD.take target with htop
  set kept := sortAscBy (fun x : String × ℚ => origOrderKey pts x.1) top
    with hkeptdef
  have hkept_top : List.Perm kept top :=
    sortAscBy_perm (fun x : String × ℚ => origOrderKey pts x.1) top
  have htop_scored : ∀ p ∈ top, p ∈ scored := fun p hp =>
    ((sortDescBy_perm (fun x : String × ℚ => x.2) scored).mem_iff).1
      (List.take_subset _ _ hp)
  have hform : ∀ p ∈ scored, p.1 ∈ pts ∧
      p = (p.1, ExtractiveSummaryCompressor.score_sentence p.1
        (pts.indexOf p.1) n query_terms) := fun p hp =>
    mem_scored_form query_terms pts hnd p hp
  have hkept_mem_scored : ∀ p ∈ kept, p ∈ scored := fun p hp =>
    htop_scored p (hkept_top.mem_iff.1 hp)
  have hmemS : ∀ s ∈ kept.map Prod.fst, s ∈ pts := by
    intro s hs
    rcases List.mem_map.1 hs with ⟨p, hp, rfl⟩
    exact (hform p (hkept_mem_scored p hp)).1
  have hfst : scored.map Prod.fst = pts := by
    rw [hscored, List.map_map]
    exact List.enum_map_snd pts
  have hlen_scored : scored.length = n := by
    rw [hscored, List.length_map, List.enum_length]
  have hnodupKept : (kept.map Prod.fst).Nodup := by
    have h1 : (sortedD.map Prod.fst).Nodup :=
      (((sortDescBy_perm (fun x : String × ℚ => x.2) scored).map
        Prod.fst).nodup_iff).2 (hfst ▸ hnd)
    have h2 : (top.map Prod.fst).Nodup :=
      h1.sublist ((List.take_sublist _ _).map Prod.fst)
    exact ((hkept_top.map Prod.fst).nodup_iff).2 h2
  refine ⟨?_, hmemS, ?_, ?_⟩
  · rw [hkept_top.length_eq, htop, List.length_take,
      (sortDescBy_perm (fun x : String × ℚ => x.2) scored).length_eq,
      hlen_scored]
  · have hasc := sortAscBy_pairwise
      (fun x : String × ℚ => origOrderKey pts x.1) top
    rw [← hkeptdef] at hasc
    have hne : kept.Pairwise (fun p q : String × ℚ => p.1 ≠ q.1) :=
      List.pairwise_map.1 hnodupKept
    refine List.pairwise_map.2 ((hasc.and hne).imp_of_mem ?_)
    intro p q hp hq hpq
    have hp1 : p.1 ∈ pts := (hform p (hkept_mem_scored p hp)).1
    have hq1 : q.1 ∈ pts := (hform q (hkept_mem_scored q hq)).1
    have hle := hpq.1
    rw [origOrderKey_nodup pts hnd p.1 hp1,
      origOrderKey_nodup pts hnd q.1 hq1] at hle
    exact lt_of_le_of_ne hle
      (fun heq => hpq.2 ((List.indexOf_inj hp1 hq1).1 heq))
  · intro s hs t ht htnot
    rcases List.mem_map.1 hs with ⟨p, hp, rfl⟩
    have hpform := (hform p (hkept_mem_scored p hp)).2
    have hpTop : p ∈ top := hkept_top.mem_iff.1 hp
    have hidx : pts.indexOf t < pts.length := List.indexOf_lt_length.2 ht
    have hgetidx : pts[pts.indexOf t] = t := List.getElem_indexOf hidx
    have hpt_scored : (t, ExtractiveSummaryCompressor.score_sentence t
        (pts.indexOf t) n query_terms) ∈ scored := by
      rw [hscored]
      have henum : (pts.indexOf t, t) ∈ pts.enum :=
        List.mk_mem_enum_iff_getElem?.2
          (List.getElem?_eq_some.2 ⟨hidx, hgetidx⟩)
      exact List.mem_map_of_mem _ henum
    have hpt_sorted : (t, ExtractiveSummaryCompressor.score_sentence t
        (pts.indexOf t) n query_terms) ∈ sortedD :=
      ((sortDescBy_perm (fun x : String × ℚ => x.2) scored).mem_iff).2
        hpt_scored
    have hpt_drop : (t, ExtractiveSummaryCompressor.score_sentence t
        (pts.indexOf t) n query_terms) ∈ sortedD.drop target := by
      rcases (List.mem_append.1 (by
        rw [List.take_append_drop target sortedD]; exact hpt_sorted)) with
        h | h
      · exfalso
        apply htnot
        have : t ∈ top.map Prod.fst := List.mem_map_of_mem Prod.fst h
        exact ((hkept_top.map Prod.fst).mem_iff).2 this
      · exact h
    have hpw := sortDescBy_pairwise (fun x : String × ℚ => x.2) scored
    rw [← hsortedD, ← List.take_append_drop target sortedD] at hpw
    rcases List.pairwise_append.1 hpw with ⟨_, _, hcross⟩
    have := hcross p hpTop _ hpt_drop
    have hp2 : p.2 = ExtractiveSummaryCompressor.score_sentence p.1
        (pts.indexOf p.1) n query_terms := by
      conv_lhs => rw [hpform]
    rw [hp2] at this
    exact this

/-- C4 (amended): for a passage whose sentence count `n` exceeds
`min_sentences`, the extractive summary compressor keeps exactly
`min n (max min_sentences (min max_sentences (int_trunc (n * ratio))))`
sentences - Python's `int()` truncates toward zero, it does not round -
namely the top-scoring ones under the composite score, reassembled (when
the passage's sentence texts are pairwise distinct, so that the text-keyed
position dict is injective) in strictly increasing original document
positions. -/
theorem extractive_compressor_count_and_order (ratio : ℚ) (mn mx : Nat)
    (query_terms : List String) (d : Doc)
    (h1 : mn < (split_sentences d.content).length)
    (h2 : (split_sentences d.content).Nodup) :
    (ExtractiveSummaryCompressor.compress_doc query_terms ratio mn mx
        d).meta.keptSentences =
      some (min ((max (mn : ℤ) (min (mx : ℤ)
        (pyIntTrunc (((split_sentences d.content).length : ℚ) *
          ratio)))).toNat) (split_sentences d.content).length) ∧
    (ExtractiveSummaryCompressor.compress_doc query_terms ratio mn mx
        d).content =
      joinSpace ((ExtractiveSummaryCompressor.kept query_terms ratio mn mx
        d.content).map Prod.fst) ∧
    (∀ s ∈ (ExtractiveSummaryCompressor.kept query_terms ratio mn mx
        d.content).map Prod.fst, s ∈ split_sentences d.content) ∧
    ((ExtractiveSummaryCompressor.kept query_terms ratio mn mx
        d.content).map Prod.fst).Pairwise
      (fun a b => (split_sentences d.content).indexOf a <
        (split_sentences d.content).indexOf b) ∧
    (∀ s ∈ (ExtractiveSummaryCompressor.kept query_terms ratio mn mx
        d.content).map Prod.fst,
      ∀ t ∈ split_sentences d.content,
        t ∉ (ExtractiveSummaryCompressor.kept query_terms ratio mn mx
          d.content).map Prod.fst →
        ExtractiveSummaryCompressor.score_sentence t
            ((split_sentences d.content).indexOf t)
            (split_sentences d.content).length query_terms ≤
          ExtractiveSummaryCompressor.score_sentence s
            ((split_sentences d.content).indexOf s)
            (split_sentences d.content).length query_terms) := by
  obtain ⟨hlen, hmem, hord, htopsc⟩ :=
    kept_facts query_terms ratio mn mx d.content h2
  refine ⟨?_, ?_, hmem, hord, htopsc⟩
  · simp only [ExtractiveSummaryCompressor.compress_doc,
      if_neg (not_le.2 h1)]
    rw [hlen]
  · simp only [ExtractiveSummaryCompressor.compress_doc,
      if_neg (not_le.2 h1)]

theorem kept_eval_one :
    ExtractiveSummaryCompressor.kept ["q"] (1/2) 1 10
      "One alpha. Two beta. Three gamma." = [("One alpha.", 1/5)] := by
  have hsplit : split_sentences "One alpha. Two beta. Three gamma." =
      ["One alpha.", "Two beta.", "Three gamma."] := by decide
  have hs1 : ExtractiveSummaryCompressor.score_sentence "One alpha." 0 3
      ["q"] = 1/5 := by
    norm_num +decide [ExtractiveSummaryCompressor.score_sentence,
      pyTermSet, pySplitWs, pySplitAux, pyLower, pyIsSpace, List.dedup,
      abs_eq_max_neg]
  have hs2 : ExtractiveSummaryCompressor.score_sentence "Two beta." 1 3
      ["q"] = -1/60 := by
    norm_num +decide [ExtractiveSummaryCompressor.score_sentence,
      pyTermSet, pySplitWs, pySplitAux, pyLower, pyIsSpace, List.dedup,
      abs_eq_max_neg]
  have hs3 : ExtractiveSummaryCompressor.score_sentence "Three gamma." 2 3
      ["q"] = 0 := by
    norm_num +decide [ExtractiveSummaryCompressor.score_sentence,
      pyTermSet, pySplitWs, pySplitAux, pyLower, pyIsSpace, List.dedup,
      abs_eq_max_neg]
  simp only [ExtractiveSummaryCompressor.kept, hsplit]
  simp only [List.enum, List.enumFrom, List.map_cons, List.map_nil,
    List.length_cons, List.length_nil]
  norm_num [hs1, hs2, hs3, sortDescBy, insertDescBy, sortAscBy,
    insertAscBy, pyIntTrunc, origOrderKey]

theorem kept_eval_zebra :
    ExtractiveSummaryCompressor.kept ["zebra"] (3/10) 2 10
      "Alpha beta gamma. Zebra runs fast today now. Alpha beta gamma." =
    [("Zebra runs fast today now.", 29/60), ("Alpha beta gamma.", 1/5)] := by
  have hsplit : split_sentences
      "Alpha beta gamma. Zebra runs fast today now. Alpha beta gamma." =
      ["Alpha beta gamma.", "Zebra runs fast today now.",
        "Alpha beta gamma."] := by decide
  have hs1 : ExtractiveSummaryCompressor.score_sentence
      "Alpha beta gamma." 0 3 ["zebra"] = 1/5 := by
    norm_num +decide [ExtractiveSummaryCompressor.score_sentence,
      pyTermSet, pySplitWs, pySplitAux, pyLower, pyIsSpace, List.dedup,
      abs_eq_max_neg]
  have hs2 : ExtractiveSummaryCompressor.score_sentence
      "Zebra runs fast today now." 1 3 ["zebra"] = 29/60 := by
    norm_num +decide [ExtractiveSummaryCompressor.score_sentence,
      pyTermSet, pySplitWs, pySplitAux, pyLower, pyIsSpace, List.dedup,
      abs_eq_max_neg]
  have hs3 : ExtractiveSummaryCompressor.score_sentence
      "Alpha beta gamma." 2 3 ["zebra"] = 0 := by
    norm_num +decide [ExtractiveSummaryCompressor.score_sentence,
      pyTermSet, pySplitWs, pySplitAux, pyLower, pyIsSpace, List.dedup,
      abs_eq_max_neg]
  have hk1 : origOrderKey ["Alpha beta gamma.",
      "Zebra runs fast today now.", "Alpha beta gamma."]
      "Zebra runs fast today now." = 1 := by decide
  have hk2 : origOrderKey ["Alpha beta gamma.",
      "Zebra runs fast today now.", "Alpha beta gamma."]
      "Alpha beta gamma." = 2 := by decide
  simp only [ExtractiveSummaryCompressor.kept, hsplit]
  simp only [List.enum, List.enumFrom, List.map_cons, List.map_nil,
    List.length_cons, List.length_nil]
  norm_num [hs1, hs2, hs3, hk1, hk2, sortDescBy, insertDescBy, sortAscBy,
    insertAscBy, pyIntTrunc]
  rfl

/-- C4 counterexample: (i) the code truncates (`int(...)`), it does not
round: on a 3-sentence passage with `compression_ratio = 0.5`,
`min_sentences = 1`, `max_sentences = 10` the code keeps
`max(1, min(10, int(1.5))) = 1` sentence while the claim's formula
`max(1, min(10, round(1.5))) = 2` demands 2; (ii) the selection is *not*
reassembled in original document order when sentence texts repeat: the
re-sort keys each kept sentence by the *last* occurrence of its text, so
the passage
`"Alpha beta gamma. Zebra runs fast today now. Alpha beta gamma."`
(query `"zebra"`) comes back as
`"Zebra runs fast today now. Alpha beta gamma."`, though in original order
the kept pair reads `"Alpha beta gamma. Zebra runs fast today now."`. -/
theorem extractive_compressor_round_and_order_false :
    (ExtractiveSummaryCompressor.compress_doc ["q"] (1/2) 1 10
        ⟨"One alpha. Two beta. Three gamma.", {}⟩).meta.keptSentences =
      some 1 ∧
    max (1 : ℤ) (min 10 (round ((3 : ℚ) * (1/2)))) = 2 ∧
    (ExtractiveSummaryCompressor.compress_doc ["zebra"] (3/10) 2 10
        ⟨"Alpha beta gamma. Zebra runs fast today now. Alpha beta gamma.",
          {}⟩).content =
      "Zebra runs fast today now. Alpha beta gamma." ∧
    ("Zebra runs fast today now. Alpha beta gamma." : String) ≠
      "Alpha beta gamma. Zebra runs fast today now." := by
  refine ⟨?_, by norm_num [round_eq], ?_, by decide⟩
  · have hsplit : split_sentences "One alpha. Two beta. Three gamma." =
        ["One alpha.", "Two beta.", "Three gamma."] := by decide
    simp only [ExtractiveSummaryCompressor.compress_doc, hsplit]
    rw [if_neg (by norm_num)]
    simp only [kept_eval_one, List.map_cons, List.map_nil,
      List.length_cons, List.length_nil]
  · have hsplit : split_sentences
        "Alpha beta gamma. Zebra runs fast today now. Alpha beta gamma." =
        ["Alpha beta gamma.", "Zebra runs fast today now.",
          "Alpha beta gamma."] := by decide
    simp only [ExtractiveSummaryCompressor.compress_doc, hsplit]
    rw [if_neg (by norm_num)]
    simp only [kept_eval_zebra, List.map_cons, List.map_nil]
    decide

theorem extractive_compressor_count_and_order_witness :
    (ExtractiveSummaryCompressor.compress_doc ["q"] (3/10) 2 10
        ⟨"Alpha one. Beta two. Gamma three.", {}⟩).meta.keptSentences =
      some (min ((max (2 : ℤ) (min (10 : ℤ)
        (pyIntTrunc (((split_sentences
          "Alpha one. Beta two. Gamma three.").length : ℚ) *
          (3/10))))).toNat)
        (split_sentences "Alpha one. Beta two. Gamma three.").length) ∧
    (ExtractiveSummaryCompressor.compress_doc ["q"] (3/10) 2 10
        ⟨"Alpha one. Beta two. Gamma three.", {}⟩).content =
      joinSpace ((ExtractiveSummaryCompressor.kept ["q"] (3/10) 2 10
        "Alpha one. Beta two. Gamma three.").map Prod.fst) ∧
    (∀ s ∈ (ExtractiveSummaryCompressor.kept ["q"] (3/10) 2 10
        "Alpha one. Beta two. Gamma three.").map Prod.fst,
      s ∈ split_sentences "Alpha one. Beta two. Gamma three.") ∧
    ((ExtractiveSummaryCompressor.kept ["q"] (3/10) 2 10
        "Alpha one. Beta two. Gamma three.").map Prod.fst).Pairwise
      (fun a b =>
        (split_sentences "Alpha one. Beta two. Gamma three.").indexOf a <
        (split_sentences "Alpha one. Beta two. Gamma three.").indexOf b) ∧
    (∀ s ∈ (ExtractiveSummaryCompressor.kept ["q"] (3/10) 2 10
        "Alpha one. Beta two. Gamma three.").map Prod.fst,
      ∀ t ∈ split_sentences "Alpha one. Beta two. Gamma three.",
        t ∉ (ExtractiveSummaryCompressor.kept ["q"] (3/10) 2 10
          "Alpha one. Beta two. Gamma three.").map Prod.fst →
        ExtractiveSummaryCompressor.score_sentence t
            ((split_sentences "Alpha one. Beta two. Gamma three.").indexOf
              t)
            (split_sentences "Alpha one. Beta two. Gamma three.").length
            ["q"] ≤
          ExtractiveSummaryCompressor.score_sentence s
            ((split_sentences "Alpha one. Beta two. Gamma three.").indexOf
              s)
            (split_sentences "Alpha one. Beta two. Gamma three.").length
            ["q"]) :=
  extractive_compressor_count_and_order (3/10) 2 10 ["q"]
    ⟨"Alpha one. Beta two. Gamma three.", {}⟩ (by decide) (by decide)

/-! ## TextChunker (chunker.py 23-122)

`TextChunker.split_text` guards empty/whitespace-only input, cleans the
text, delegates the actual splitting to LangChain's
`RecursiveCharacterTextSplitter` (a third-party dependency, not part of
this repository - passed here as the oracle `splitter`), post-processes
each chunk and drops empty chunks. -/

/-- State machine for `re.sub(r" +", " ", text)`: the flag records whether
the previous character was a space. -/
def collapseSpAux : Bool → List Char → List Char
  | _, [] => []
  | prevSp, c :: rest =>
    if c = ' ' then
      if prevSp then collapseSpAux true rest
      else ' ' :: collapseSpAux true rest
    else c :: collapseSpAux false rest

/-- State machine for `re.sub(r"\n{3,}", "\n\n", text)`: `pending` counts
the newline run being consumed; on leaving a run, a run of three or more
newlines is emitted as exactly two. -/
def collapseNLAux : Nat → List Char → List Char
  | pending, [] => List.replicate (min pending 2) '\n'
  | pending, c :: rest =>
    if c = '\n' then collapseNLAux (pending + 1) rest
    else List.replicate (min pending 2) '\n' ++ c :: collapseNLAux 0 rest

/-- Python `text.split("\n")` (keeps empty pieces). -/
def splitOnNl : List Char → List (List Char)
  | [] => [[]]
  | c :: rest =>
    if c = '\n' then [] :: splitOnNl rest
    else
      match splitOnNl rest with
      | [] => [[c]]
      | p :: ps => (c :: p) :: ps

/-- Python `"\n".join(pieces)` on character lists. -/
def intercalateNl : List (List Char) → List Char
  | [] => []
  | [p] => p
  | p :: ps => p ++ '\n' :: intercalateNl ps

/-- The control characters removed by `_clean_text`:
`[\x00-\x08\x0b\x0c\x0e-\x1f\x7f]` (note `\t`, `\n` and `\r` survive). -/
def ctrlChar (c : Char) : Bool :=
  (c.toNat ≤ 0x08) || c.toNat = 0x0b || c.toNat = 0x0c ||
    (0x0e ≤ c.toNat && c.toNat ≤ 0x1f) || c.toNat = 0x7f

/-- `TextChunker._clean_text` (chunker.py 96-111): collapse space runs,
collapse 3+ newlines to two, strip every line, drop control characters,
strip the result. -/
def TextChunker.clean_text (s : String) : String :=
  let t1 := collapseSpAux false s.data
  let t2 := collapseNLAux 0 t1
  let t3 := intercalateNl ((splitOnNl t2).map pyStripList)
  let t4 := t3.filter (fun c => !ctrlChar c)
  String.mk (pyStripList t4)

/-- The characters of the source's orphaned-punctuation set `.,;:!?)]`
plus the closing brace (written `\x7d`). -/
def orphanPunct (c : Char) : Bool :=
  c = '.' || c = ',' || c = ';' || c = ':' || c = '!' || c = '?' ||
    c = ')' || c = ']' || c = '\x7d'

/-- The `while` loop of `_post_process_chunk` with explicit fuel (each
iteration removes at least one character, so any fuel of at least the
input length reaches the fixed point; the fuel-exhausted branch is
unreachable at the call site below). -/
def ppLoopF : Nat → List Char → List Char
  | _, [] => []
  | 0, l => l
  | fuel + 1, c :: rest =>
    if orphanPunct c then ppLoopF fuel (pyStripList rest) else c :: rest

/-- `TextChunker._post_process_chunk` (chunker.py 113-122): strip, then
repeatedly drop one leading orphaned punctuation character and re-strip. -/
def TextChunker.post_process_chunk (chunk : String) : String :=
  String.mk (ppLoopF chunk.data.length (pyStripList chunk.data))

/-- `TextChunker.split_text` (chunker.py 64-94), with the LangChain
splitter as an oracle. -/
def TextChunker.split_text (splitter : String → List String)
    (text : String) : List String :=
  if text = "" ∨ pyStrip text = "" then []
  else
    let cleaned_text := TextChunker.clean_text text
    let chunks := splitter cleaned_text
    let processed_chunks := chunks.map TextChunker.post_process_chunk
    processed_chunks.filter (fun c => pyStrip c ≠ "")

/-- Modelled from the spec: the recursive character splitter itself lives
in the LangChain dependency, outside this repository's source; spec
section 4.1 states that the splitter returns pieces within `chunk_size`,
so on a text already within `chunk_size` it yields that text as the single
piece.  This function is that documented behavior for the short-text
case. -/
def wholeTextSplitter : String → List String := fun s => [s]

/-- C8 counterexample: a text shorter than `chunk_size` does *not* always
come back as a single chunk equal to the cleaned text: post-processing
strips leading orphaned punctuation, so `".hello world"` (cleaned: itself)
becomes `"hello world"`.  The output differs from `[cleaned]` for *every*
splitter, since every returned chunk is post-processed; the evaluation
here uses the spec's documented short-text splitter behavior. -/
theorem chunker_short_text_not_cleaned :
    TextChunker.split_text wholeTextSplitter ".hello world" =
      ["hello world"] ∧
    TextChunker.clean_text ".hello world" = ".hello world" ∧
    (["hello world"] : List String) ≠
      [TextChunker.clean_text ".hello world"] := by
  refine ⟨by decide, by decide, by decide⟩

/-- C8 (amended): empty or whitespace-only input yields the empty
sequence (for every splitter); for text on which the splitter returns the
cleaned text whole (the documented behavior when the text is shorter than
`chunk_size`), the result is the single chunk obtained from the cleaned
text by post-processing (stripping leading orphaned punctuation), or the
empty sequence when post-processing leaves nothing. -/
theorem chunker_empty_and_short_text (splitter : String → List String)
    (text : String)
    (hsplit : splitter (TextChunker.clean_text text) =
      [TextChunker.clean_text text]) :
    (∀ (sp : String → List String) (t : String),
      t = "" ∨ pyStrip t = "" → TextChunker.split_text sp t = []) ∧
    TextChunker.split_text splitter text =
      (if text = "" ∨ pyStrip text = "" then []
       else if pyStrip (TextChunker.post_process_chunk
          (TextChunker.clean_text text)) = "" then []
       else [TextChunker.post_process_chunk
          (TextChunker.clean_text text)]) := by
  constructor
  · intro sp t ht
    simp only [TextChunker.split_text, if_pos ht]
  · by_cases h0 : text = "" ∨ pyStrip text = ""
    · simp only [TextChunker.split_text, if_pos h0]
    · simp only [TextChunker.split_text, if_neg h0, hsplit,
        List.map_cons, List.map_nil, List.filter_cons, List.filter_nil]
      by_cases hpp : pyStrip (TextChunker.post_process_chunk
          (TextChunker.clean_text text)) = ""
      · simp [hpp]
      · simp [hpp]

theorem chunker_empty_and_short_text_witness :
    (∀ (sp : String → List String) (t : String),
      t = "" ∨ pyStrip t = "" → TextChunker.split_text sp t = []) ∧
    TextChunker.split_text wholeTextSplitter "hi there" =
      (if ("hi there" : String) = "" ∨ pyStrip "hi there" = "" then []
       else if pyStrip (TextChunker.post_process_chunk
          (TextChunker.clean_text "hi there")) = "" then []
       else [TextChunker.post_process_chunk
          (TextChunker.clean_text "hi there")]) :=
  chunker_empty_and_short_text wholeTextSplitter "hi there" (by decide)
